import Mathlib

/-!
Verification of the MLIT real-estate ingestion pipeline
(src/dbutils/ingest_data.py) against its natural-language specification.

The Python source is shallowly embedded: dynamically-typed Python values
are modelled by the inductive type PyVal (None, str, int, float — floats
are modelled as rationals; IEEE-754 rounding and float repr formatting are
not modelled, and no claim below depends on them), raw upstream records by
finite partial maps from field names to PyVal, and code that can raise an
exception by Except.  Machine-level details that the claims do depend on
(SHA-256, UTF-8 encoding, psycopg2 execute_values paging) are embedded
executably and faithfully below.
-/

/-- Model of a dynamically typed Python value as it occurs in the raw API
records: None, a str, an int, or a float (modelled as a rational; binary64
rounding and Python float repr are abstracted, no claim depends on them). -/
inductive PyVal where
  | vNone : PyVal
  | vStr : String → PyVal
  | vInt : Int → PyVal
  | vFloat : ℚ → PyVal
deriving DecidableEq, Repr

/-- A raw upstream record is a Python dict: a partial map from field names
to values.  A key bound to .none is absent from the dict; a key bound to
some .vNone carries an explicit None value. -/
def RawRecord : Type := String → Option PyVal

/-- Python record.get(k): the value bound to k, or None when absent. -/
def pyGet (r : RawRecord) (k : String) : PyVal :=
  (r k).getD PyVal.vNone

/-- Python record.get(k, d): the value bound to k, or the default d when absent. -/
def pyGetD (r : RawRecord) (k : String) (d : PyVal) : PyVal :=
  (r k).getD d

/-- Python truthiness of the modelled values: None is falsy, a str is truthy
iff nonempty, numbers are truthy iff nonzero. -/
def pyTruthy : PyVal → Bool
  | .vNone => false
  | .vStr s => s != ""
  | .vInt n => n != 0
  | .vFloat q => q != 0

/-- Python str() of the modelled values.  str of a float is approximated by
the rational toString; no claim depends on float formatting. -/
def pyStr : PyVal → String
  | .vNone => "None"
  | .vStr s => s
  | .vInt n => toString n
  | .vFloat q => toString q

/-- Characters stripped by Python str.strip() with no argument (ASCII
whitespace; exotic unicode whitespace is not modelled). -/
def isPySpace (c : Char) : Bool :=
  c == ' ' || c == '\t' || c == '\n' || c == '\r' || c == Char.ofNat 11 || c == Char.ofNat 12

/-- Python str.strip(): remove leading and trailing whitespace characters. -/
def pyStripChars (cs : List Char) : List Char :=
  ((cs.dropWhile isPySpace).reverse.dropWhile isPySpace).reverse

/-- Value of a list of decimal digit characters read left to right. -/
def digitsVal (ds : List Char) : Nat :=
  ds.foldl (fun a c => 10 * a + (c.toNat - 48)) 0

/-- Model of Python int(s) on a str: optional surrounding whitespace, an
optional sign, then a nonempty run of decimal digits; anything else raises
ValueError, modelled as none.  (Underscore digit grouping and non-ASCII
digits accepted by CPython are not modelled; no claim depends on them.) -/
def intDigits (ds : List Char) : Option Int :=
  if ds.isEmpty then none
  else if ds.all Char.isDigit then some (digitsVal ds : Int) else none

/-- Sign handling of int(s): a leading + or - applies to the digit run
after it, anything else must be all digits. -/
def pyIntChars : List Char → Option Int
  | [] => none
  | c :: cs =>
      if c = '+' then intDigits cs
      else if c = '-' then (intDigits cs).map Neg.neg
      else intDigits (c :: cs)

def pyIntOfString (s : String) : Option Int :=
  pyIntChars (pyStripChars s.data)

/-- Truncation of a rational toward zero, as Python int(float) does. -/
def ratTrunc (q : ℚ) : Int :=
  q.num.tdiv (q.den : Int)

/-- Model of Python int(x) on an arbitrary value; none models the raised
TypeError (for None) or ValueError (for an unparsable str), both of which
every caller in the source catches. -/
def pyIntOfVal : PyVal → Option Int
  | .vNone => none
  | .vStr s => pyIntOfString s
  | .vInt n => some n
  | .vFloat q => some (ratTrunc q)

/-- Mantissa of a Python float literal: digits, optionally with a decimal
point on either side; returns its rational value and the unconsumed tail. -/
def parseMantissa (cs : List Char) : Option (ℚ × List Char) :=
  let ip := cs.takeWhile Char.isDigit
  let rest1 := cs.dropWhile Char.isDigit
  match rest1 with
  | '.' :: rest2 =>
      let fp := rest2.takeWhile Char.isDigit
      let rest3 := rest2.dropWhile Char.isDigit
      if ip.isEmpty && fp.isEmpty then none
      else some ((digitsVal ip : ℚ) + (digitsVal fp : ℚ) / (10 : ℚ) ^ fp.length, rest3)
  | _ => if ip.isEmpty then none else some ((digitsVal ip : ℚ), rest1)

/-- Optional exponent part of a Python float literal applied to a mantissa
value; the tail must be empty or a complete exponent. -/
def parseExpPart (q : ℚ) : List Char → Option ℚ
  | [] => some q
  | e :: rest =>
      if e == 'e' || e == 'E' then
        match rest with
        | '+' :: ds =>
            if ds.isEmpty then none
            else if ds.all Char.isDigit then some (q * (10 : ℚ) ^ digitsVal ds) else none
        | '-' :: ds =>
            if ds.isEmpty then none
            else if ds.all Char.isDigit then some (q / (10 : ℚ) ^ digitsVal ds) else none
        | ds =>
            if ds.isEmpty then none
            else if ds.all Char.isDigit then some (q * (10 : ℚ) ^ digitsVal ds) else none
      else none

/-- Model of Python float(s) on a str: optional whitespace and sign, decimal
mantissa, optional exponent; none models the raised ValueError.  (inf/nan
literals, underscores and binary64 rounding are not modelled; no claim
depends on them.) -/
def pyFloatOfString (s : String) : Option ℚ :=
  match pyStripChars s.data with
  | '+' :: cs => (parseMantissa cs).bind (fun p => parseExpPart p.1 p.2)
  | '-' :: cs => ((parseMantissa cs).bind (fun p => parseExpPart p.1 p.2)).map Neg.neg
  | cs => (parseMantissa cs).bind (fun p => parseExpPart p.1 p.2)

/-- Embedding of parse_numeric (ingest_data.py lines 203-214): None and the
empty string give null; an int or float is passed through as a float; a str
has commas removed and whitespace stripped and is parsed as a float if
nonempty; any parse failure gives null.  Total by construction. -/
def parse_numeric (v : PyVal) : Option ℚ :=
  if v = PyVal.vNone ∨ v = PyVal.vStr "" then none
  else
    match v with
    | .vInt n => some (n : ℚ)
    | .vFloat q => some q
    | .vStr s =>
        let cleaned := pyStripChars (s.data.filter (fun c => c ≠ ','))
        if cleaned.isEmpty then none
        else
          match pyFloatOfString (String.mk cleaned) with
          | some q => some q
          | none => none
    | .vNone => none

/-- Substring test used below: does the pattern occur as a prefix of the
list? -/
def leadsWith : List Char → List Char → Bool
  | [], _ => true
  | _ :: _, [] => false
  | p :: ps, c :: cs => p == c && leadsWith ps cs

/-- Python "pat in hay" on strings: the pattern occurs contiguously
somewhere in the haystack. -/
def listContainsSub (pat : List Char) : List Char → Bool
  | [] => pat.isEmpty
  | c :: cs => leadsWith pat (c :: cs) || listContainsSub pat cs

/-- String form of the substring test. -/
def strContainsSub (hay pat : String) : Bool :=
  listContainsSub pat.data hay.data

/-- The digit characters of a string, in order, as filtered by
join(filter(str.isdigit, s)) in the source (ASCII digits). -/
def eraDigits (s : String) : List Char :=
  s.data.filter Char.isDigit

/-- Era-marker branch of parse_building_year (lines 182-200): the first
matching marker of Reiwa / Heisei / Showa selects a fixed offset which is
added to the number formed by concatenating every digit of the string; a
marker with no digits gives null (the int('') ValueError is caught), and no
marker gives null. -/
def eraResolve (s : String) : Option Int :=
  if strContainsSub s "令和" || strContainsSub s "Reiwa" then
    if (eraDigits s).isEmpty then none
    else some (2018 + (digitsVal (eraDigits s) : Int))
  else if strContainsSub s "平成" || strContainsSub s "Heisei" then
    if (eraDigits s).isEmpty then none
    else some (1988 + (digitsVal (eraDigits s) : Int))
  else if strContainsSub s "昭和" || strContainsSub s "Showa" then
    if (eraDigits s).isEmpty then none
    else some (1925 + (digitsVal (eraDigits s) : Int))
  else none

/-- Embedding of parse_building_year (lines 172-200): a falsy input gives
null; a value int() parses to a year in [1900, 2100] is returned unchanged;
otherwise the string form is inspected for one of the three era markers. -/
def parse_building_year (v : PyVal) : Option Int :=
  if pyTruthy v = false then none
  else
    match pyIntOfVal v with
    | some y => if 1900 ≤ y ∧ y ≤ 2100 then some y else eraResolve (pyStr v)
    | none => eraResolve (pyStr v)


/-- Splitting a list into consecutive chunks of size n (the last chunk may
be shorter).  Used for the 64-byte SHA-256 blocks and for the 1000-row
pages of psycopg2 execute_values. -/
def chunksOf {α : Type} : Nat → List α → List (List α)
  | _, [] => []
  | 0, _ :: _ => []
  | n + 1, x :: xs =>
      (x :: xs).take (n + 1) :: chunksOf (n + 1) ((x :: xs).drop (n + 1))
termination_by _ l => l.length
decreasing_by
  simp only [List.length_drop, List.length_cons]
  omega

/-- Modulus of 32-bit word arithmetic. -/
def M32 : Nat := 4294967296

/-- Right rotation of a 32-bit word. -/
def rotr32 (n x : Nat) : Nat :=
  ((x >>> n) ||| (x <<< (32 - n))) % M32

/-- Bitwise complement of a 32-bit word. -/
def not32 (x : Nat) : Nat := x ^^^ (M32 - 1)

/-- The 64 SHA-256 round constants (FIPS 180-4). -/
def sha256K : List Nat :=
  [1116352408, 1899447441, 3049323471, 3921009573, 961987163, 1508970993,
   2453635748, 2870763221, 3624381080, 310598401, 607225278, 1426881987,
   1925078388, 2162078206, 2614888103, 3248222580, 3835390401, 4022224774,
   264347078, 604807628, 770255983, 1249150122, 1555081692, 1996064986,
   2554220882, 2821834349, 2952996808, 3210313671, 3336571891, 3584528711,
   113926993, 338241895, 666307205, 773529912, 1294757372, 1396182291,
   1695183700, 1986661051, 2177026350, 2456956037, 2730485921, 2820302411,
   3259730800, 3345764771, 3516065817, 3600352804, 4094571909, 275423344,
   430227734, 506948616, 659060556, 883997877, 958139571, 1322822218,
   1537002063, 1747873779, 1955562222, 2024104815, 2227730452, 2361852424,
   2428436474, 2756734187, 3204031479, 3329325298]

/-- The eight 32-bit words of SHA-256 chaining state. -/
structure Sha256State where
  h0 : Nat
  h1 : Nat
  h2 : Nat
  h3 : Nat
  h4 : Nat
  h5 : Nat
  h6 : Nat
  h7 : Nat
deriving Repr, DecidableEq

/-- The SHA-256 initial hash value (FIPS 180-4). -/
def sha256Init : Sha256State :=
  ⟨1779033703, 3144134277, 1013904242, 2773480762,
   1359893119, 2600822924, 528734635, 1541459225⟩

/-- Next word of the SHA-256 message schedule, extending the given prefix. -/
def sha256NextW (w : List Nat) : Nat :=
  let i := w.length
  let w15 := w.getD (i - 15) 0
  let w2 := w.getD (i - 2) 0
  let w16 := w.getD (i - 16) 0
  let w7 := w.getD (i - 7) 0
  let s0 := rotr32 7 w15 ^^^ rotr32 18 w15 ^^^ (w15 >>> 3)
  let s1 := rotr32 17 w2 ^^^ rotr32 19 w2 ^^^ (w2 >>> 10)
  (w16 + s0 + w7 + s1) % M32

/-- The 64-word SHA-256 message schedule of a 16-word block. -/
def sha256Schedule (ws : List Nat) : List Nat :=
  (List.range 48).foldl (fun w _ => w ++ [sha256NextW w]) ws

/-- One SHA-256 compression step on a 16-word block. -/
def sha256Compress (st : Sha256State) (block : List Nat) : Sha256State :=
  let w := sha256Schedule block
  let init8 := (st.h0, st.h1, st.h2, st.h3, st.h4, st.h5, st.h6, st.h7)
  let st8 := (List.range 64).foldl
    (fun t i =>
      match t with
      | (a, b, c, d, e, f, g, h) =>
        let bigS1 := rotr32 6 e ^^^ rotr32 11 e ^^^ rotr32 25 e
        let ch := (e &&& f) ^^^ (not32 e &&& g)
        let temp1 := (h + bigS1 + ch + sha256K.getD i 0 + w.getD i 0) % M32
        let bigS0 := rotr32 2 a ^^^ rotr32 13 a ^^^ rotr32 22 a
        let maj := (a &&& b) ^^^ (a &&& c) ^^^ (b &&& c)
        let temp2 := (bigS0 + maj) % M32
        ((temp1 + temp2) % M32, a, b, c, (d + temp1) % M32, e, f, g))
    init8
  match st8 with
  | (a, b, c, d, e, f, g, h) =>
    ⟨(st.h0 + a) % M32, (st.h1 + b) % M32, (st.h2 + c) % M32, (st.h3 + d) % M32,
     (st.h4 + e) % M32, (st.h5 + f) % M32, (st.h6 + g) % M32, (st.h7 + h) % M32⟩

/-- SHA-256 padding of a byte message: 0x80, zeros, and the 64-bit
big-endian bit length, to a multiple of 64 bytes. -/
def sha256Pad (msg : List Nat) : List Nat :=
  let len := msg.length
  let bitLen := 8 * len
  let k := (64 - ((len + 9) % 64)) % 64
  msg ++ [128] ++ List.replicate k 0 ++
    [(bitLen >>> 56) % 256, (bitLen >>> 48) % 256, (bitLen >>> 40) % 256,
     (bitLen >>> 32) % 256, (bitLen >>> 24) % 256, (bitLen >>> 16) % 256,
     (bitLen >>> 8) % 256, bitLen % 256]

/-- The 16 big-endian 32-bit words of a 64-byte block. -/
def sha256BlockWords (block : List Nat) : List Nat :=
  (chunksOf 4 block).map (fun bs => bs.foldl (fun a b => a * 256 + b) 0)

/-- Big-endian bytes of a 32-bit word. -/
def wordBytes (w : Nat) : List Nat :=
  [(w >>> 24) % 256, (w >>> 16) % 256, (w >>> 8) % 256, w % 256]

/-- The 32 digest bytes of a final SHA-256 state. -/
def digestBytes (st : Sha256State) : List Nat :=
  wordBytes st.h0 ++ wordBytes st.h1 ++ wordBytes st.h2 ++ wordBytes st.h3 ++
  wordBytes st.h4 ++ wordBytes st.h5 ++ wordBytes st.h6 ++ wordBytes st.h7

/-- SHA-256 of a byte message. -/
def sha256Digest (msg : List Nat) : List Nat :=
  digestBytes
    ((chunksOf 64 (sha256Pad msg)).foldl
      (fun st b => sha256Compress st (sha256BlockWords b)) sha256Init)

/-- Lower-case hex digit characters. -/
def hexDigitChar (n : Nat) : Char :=
  "0123456789abcdef".data.getD n '0'

/-- Two lower-case hex characters of a byte. -/
def byteHexChars (b : Nat) : List Char :=
  [hexDigitChar ((b / 16) % 16), hexDigitChar (b % 16)]

/-- Python hashlib sha256(...).hexdigest(): the 64 lower-case hex characters
of the digest. -/
def sha256Hexdigest (msg : List Nat) : String :=
  String.mk ((sha256Digest msg).flatMap byteHexChars)

/-- UTF-8 encoding of one character (str.encode()). -/
def utf8EncodeChar (c : Char) : List Nat :=
  let n := c.toNat
  if n < 128 then [n]
  else if n < 2048 then [192 ||| (n >>> 6), 128 ||| (n &&& 63)]
  else if n < 65536 then
    [224 ||| (n >>> 12), 128 ||| ((n >>> 6) &&& 63), 128 ||| (n &&& 63)]
  else
    [240 ||| (n >>> 18), 128 ||| ((n >>> 12) &&& 63),
     128 ||| ((n >>> 6) &&& 63), 128 ||| (n &&& 63)]

/-- UTF-8 bytes of a string (Python str.encode()). -/
def utf8Bytes (s : String) : List Nat :=
  s.data.flatMap utf8EncodeChar

/-- The field names of the deduplication key tuple, in the fixed order used
by generate_record_hash (lines 218-226). -/
def hashKeyFieldNames : List String :=
  ["MunicipalityCode", "DistrictName", "TradePrice", "Area", "Period",
   "BuildingYear", "Type"]

/-- The joined key string hashed by generate_record_hash (line 227):
str() of each key field value, joined with the fixed delimiter. -/
def hashKeyString (r : RawRecord) : String :=
  String.intercalate "|" ((hashKeyFieldNames.map (pyGet r)).map pyStr)

/-- Embedding of generate_record_hash (lines 217-228): the first 32 hex
characters of the SHA-256 digest of the UTF-8 encoded key string. -/
def generate_record_hash (r : RawRecord) : String :=
  String.mk ((sha256Hexdigest (utf8Bytes (hashKeyString r))).data.take 32)

/-- Exceptions transform_record can raise: TypeError (len() or slicing of a
non-str) or ValueError; everything else in the transformer absorbs its
errors. -/
inductive PyErr where
  | typeError
  | valueError
deriving DecidableEq, Repr

/-- The fixed property-type vocabulary PROPERTY_TYPE_MAP (lines 155-169). -/
def PROPERTY_TYPE_MAP : List (String × Int) :=
  [("Pre-owned Condominiums", 1), ("Pre-owned Condominiums, etc.", 1),
   ("Residential Land", 2), ("Residential Land(Land Only)", 2),
   ("Residential Land and Building", 3), ("Residential Land(Land and Building)", 3),
   ("Agricultural Land", 4), ("Forest Land", 5), ("Pre-owned House", 6),
   ("Office", 7), ("Shop", 8), ("Warehouse", 9), ("Factory", 10)]

/-- PROPERTY_TYPE_MAP.get(label): only a str key can match the string-keyed
dict; an unmapped or non-str label gives null. -/
def propertyTypeLookup : PyVal → Option Int
  | .vStr s => List.lookup s PROPERTY_TYPE_MAP
  | _ => none

/-- The municipality_code branch of transform_record (lines 239-243): a
falsy value gives null without calling len(); a truthy value has len()
taken, which raises TypeError on a non-str; a 5-character string is kept
and any other string gives null. -/
def muniCodeField (v : PyVal) : Except PyErr (Option String) :=
  if pyTruthy v then
    match v with
    | .vStr s => if s.length = 5 then .ok (some s) else .ok none
    | _ => .error .typeError
  else .ok none

/-- The price_classification expression (line 260): a falsy PriceCategory
gives "01"; a truthy one is sliced [:2], which raises TypeError on a
non-str. -/
def priceClassField (record : RawRecord) : Except PyErr String :=
  if pyTruthy (pyGet record "PriceCategory") then
    match pyGetD record "PriceCategory" (PyVal.vStr "01") with
    | .vStr s => .ok (String.mk (s.data.take 2))
    | _ => .error .typeError
  else .ok "01"

/-- The guarded conversion int(x) if x else None (lines 267-268, 280-281):
a parsed value that is None or 0 is stored as null; only a truthy (nonzero)
value is truncated to an integer. -/
def intIfTruthy : Option ℚ → Option Int
  | none => none
  | some q => if q ≠ 0 then some (ratTrunc q) else none

/-- The canonical record produced by transform_record (lines 258-287).
Fields keep the source dict keys, except that the key named structure is
embedded as building_structure (structure is a Lean keyword).  Fields the
transformer passes through untyped stay PyVal. -/
structure CanonicalRecord where
  source_hash : String
  price_classification : String
  prefecture_code : String
  municipality_code : Option String
  municipality_name : PyVal
  district_name : PyVal
  property_type_id : Option Int
  property_type_raw : PyVal
  trade_price : Option Int
  unit_price : Option Int
  area_m2 : Option ℚ
  total_floor_area_m2 : Option ℚ
  floor_plan : PyVal
  building_year : Option Int
  building_structure : PyVal
  land_shape : PyVal
  frontage_m : Option ℚ
  road_direction : PyVal
  road_type : PyVal
  road_width_m : Option ℚ
  city_planning : PyVal
  coverage_ratio : Option Int
  floor_area_ratio : Option Int
  transaction_year : Int
  transaction_quarter : Option Int
  transaction_period : PyVal
  renovation : PyVal
  remarks : PyVal
deriving DecidableEq, Repr

/-- Embedding of transform_record (lines 231-287).  The two spots that can
raise on dynamically mistyped input are evaluated in source order: the
municipality_code branch (line 240) before the dict literal whose
price_classification expression (line 260) slices PriceCategory.  All other
fields are total. -/
def transform_record (record : RawRecord) (prefecture_code : String)
    (year : Int) (quarter : Option Int) : Except PyErr CanonicalRecord :=
  let source_hash := generate_record_hash record
  match muniCodeField (pyGetD record "MunicipalityCode" (PyVal.vStr "")) with
  | .error e => .error e
  | .ok municipality_code =>
    let property_type_raw := pyGetD record "Type" (PyVal.vStr "")
    let property_type_id := propertyTypeLookup property_type_raw
    let trade_price := parse_numeric (pyGet record "TradePrice")
    let unit_price := parse_numeric (pyGet record "UnitPrice")
    let area_m2 := parse_numeric (pyGet record "Area")
    let total_floor_area := parse_numeric (pyGet record "TotalFloorArea")
    let frontage := parse_numeric (pyGet record "Frontage")
    let road_width := parse_numeric (pyGet record "Breadth")
    let coverage_ratio := parse_numeric (pyGet record "CoverageRatio")
    let floor_area_ratio := parse_numeric (pyGet record "FloorAreaRatio")
    let building_year := parse_building_year (pyGet record "BuildingYear")
    match priceClassField record with
    | .error e => .error e
    | .ok price_classification =>
      .ok
        { source_hash := source_hash
          price_classification := price_classification
          prefecture_code := prefecture_code
          municipality_code := municipality_code
          municipality_name := pyGetD record "Municipality" (PyVal.vStr "")
          district_name := pyGet record "DistrictName"
          property_type_id := property_type_id
          property_type_raw := property_type_raw
          trade_price := intIfTruthy trade_price
          unit_price := intIfTruthy unit_price
          area_m2 := area_m2
          total_floor_area_m2 := total_floor_area
          floor_plan := pyGet record "FloorPlan"
          building_year := building_year
          building_structure := pyGet record "Structure"
          land_shape := pyGet record "LandShape"
          frontage_m := frontage
          road_direction := pyGet record "Direction"
          road_type := pyGet record "Classification"
          road_width_m := road_width
          city_planning := pyGet record "CityPlanning"
          coverage_ratio := intIfTruthy coverage_ratio
          floor_area_ratio := intIfTruthy floor_area_ratio
          transaction_year := year
          transaction_quarter := quarter
          transaction_period := pyGet record "Period"
          renovation := pyGet record "Renovation"
          remarks := pyGet record "Remarks" }

/-- The relational store as seen by the loader claims: the transactions
table is represented by the list of its source_hash keys in insertion order
(source_hash is the declared uniqueness / conflict target, and nothing else
about a stored row affects the loader), and the municipalities dimension by
the list of its codes. -/
structure Store where
  transactions : List String
  municipalities : List String
deriving DecidableEq, Repr

/-- Embedding of ensure_municipality_exists (lines 304-313): codes that are
not exactly 5 characters are rejected (the empty string is also caught by
this test); otherwise INSERT ... ON CONFLICT (code) DO NOTHING. -/
def ensure_municipality_exists (st : Store) (code : String) : Store :=
  if code.length ≠ 5 then st
  else if code ∈ st.municipalities then st
  else { st with municipalities := st.municipalities ++ [code] }

/-- The municipality upsert loop of insert_transactions (lines 321-327):
every truthy municipality_code not yet locally seen is upserted once. -/
def upsertMunis (st : Store) (seen : List String) :
    List CanonicalRecord → Store
  | [] => st
  | r :: rs =>
      match r.municipality_code with
      | some c =>
          if c ≠ "" ∧ c ∉ seen then
            upsertMunis (ensure_municipality_exists st c) (c :: seen) rs
          else upsertMunis st seen rs
      | none => upsertMunis st seen rs

/-- One row of the bulk INSERT ... ON CONFLICT (source_hash) DO NOTHING: a
fresh hash is appended and counts 1 toward the statement rowcount, a
conflicting hash (already stored, or inserted earlier in the same
statement) is skipped and counts 0. -/
def insertRow (st : Store) (r : CanonicalRecord) : Store × Nat :=
  if r.source_hash ∈ st.transactions then (st, 0)
  else ({ st with transactions := st.transactions ++ [r.source_hash] }, 1)

/-- One page of execute_values: a single INSERT statement over the page,
returning the updated store and the statement rowcount (rows inserted). -/
def insertPage (st : Store) : List CanonicalRecord → Store × Nat
  | [] => (st, 0)
  | r :: rs =>
      let p := insertRow st r
      let q := insertPage p.1 rs
      (q.1, p.2 + q.2)

/-- psycopg2 execute_values over pre-split pages: each page is executed as
one INSERT statement, and cur.rowcount afterwards reflects only the LAST
statement executed, so each fold step replaces the previous count instead
of accumulating it. -/
def runPages (st : Store) : List (List CanonicalRecord) → Store × Nat
  | [] => (st, 0)
  | [p] => insertPage st p
  | p :: q :: ps => runPages (insertPage st p).1 (q :: ps)

/-- Embedding of insert_transactions (lines 316-356): early return 0 on an
empty batch; upsert unseen municipalities; then execute_values of the fact
rows with conflict target source_hash and page_size 1000, returning
cur.rowcount. -/
def insert_transactions (st : Store) (records : List CanonicalRecord)
    (prefecture_code : String) : Store × Nat :=
  if records.isEmpty then (st, 0)
  else
    let st1 := upsertMunis st [] records
    runPages st1 (chunksOf 1000 records)

/-- Outcome of one Frankfurter FX request as classified by fetch_fx_rate
(lines 507-533): a 200 whose body carries the requested currency, a 200
without it, a 404 (date not published), another HTTP status, or a raised
requests.RequestException. -/
inductive FxResp where
  | ok (rate : ℚ)
  | okMissing
  | notFound
  | httpOther
  | exn
deriving DecidableEq, Repr

/-- Embedding of the retry/fallback control flow of fetch_fx_rate (lines
507-533) over a response oracle indexed by the day number of the requested
date.  Returns the recorded rate (if any) and the list of requested dates
in order.  The attempts argument is the remaining iterations of the range
of max_retries loop; a 200-with-rate returns at once, a 404 returns the
recursive call on the previous day with max_retries 1, and every other
outcome falls through to the next attempt on the same date.  The fuel
argument is an artifact bounding the recursion depth of the shallow
embedding (the source recursion is unbounded across consecutive 404 days);
every theorem below supplies sufficient fuel, and fuel exhaustion yields
the same value as an exhausted attempt loop. -/
def fxLoop (resp : Int → FxResp) : Nat → Int → Nat → Option ℚ × List Int
  | 0, _, _ => (none, [])
  | _ + (1 : Nat), _, 0 => (none, [])
  | f + (1 : Nat), d, a + (1 : Nat) =>
      match resp d with
      | .ok r => (some r, [d])
      | .notFound =>
          let p := fxLoop resp f (d - 1) 1
          (p.1, d :: p.2)
      | _ =>
          let p := fxLoop resp f d a
          (p.1, d :: p.2)

/-- Embedding of fetch_fx_rate (lines 507-533); the source default
max_retries is 3. -/
def fetch_fx_rate (resp : Int → FxResp) (fuel : Nat) (rate_date : Int)
    (max_retries : Nat) : Option ℚ × List Int :=
  fxLoop resp fuel rate_date max_retries

/-- The starting probe period of find_latest_available_quarter (lines
443-448): quarter index (month - 1) / 3 of the current year, rolled back to
Q4 of the previous year when that index is 0. -/
def startPeriod (year : Int) (month : Nat) : Int × Nat :=
  let q := (month - 1) / 3
  if q = 0 then (year - 1, 4) else (year, q)

/-- The in-loop decrement of find_latest_available_quarter (lines 458-461):
one quarter back, wrapping Q1 to Q4 of the previous year. -/
def prevQuarter : Int × Nat → Int × Nat
  | (y, q) => if q - 1 = 0 then (y - 1, 4) else (y, q - 1)

/-- The probe loop of find_latest_available_quarter (lines 451-462) over a
fetch oracle: at most the given number of iterations, returning the first
period whose fetch is not None (400/404) together with the list of probed
periods in order. -/
def probeGo (fetch : Int × Nat → Option (List RawRecord)) :
    Nat → Int × Nat → Option (Int × Nat) × List (Int × Nat)
  | 0, _ => (none, [])
  | k + 1, p =>
      match fetch p with
      | some _ => (some p, [p])
      | none =>
          let r := probeGo fetch k (prevQuarter p)
          (r.1, p :: r.2)

/-- Embedding of find_latest_available_quarter (lines 441-464): starting
from the most recently completed quarter relative to now (given as the
current year and month), probe backward up to 4 quarters against the fixed
reference region; (None, None) in the source is modelled as none. -/
def find_latest_available_quarter (fetch : Int × Nat → Option (List RawRecord))
    (year : Int) (month : Nat) : Option (Int × Nat) × List (Int × Nat) :=
  probeGo fetch 4 (startPeriod year month)

/-- Any of the six era-marker substrings tested by parse_building_year. -/
def hasEraMarker (s : String) : Bool :=
  strContainsSub s "令和" || strContainsSub s "Reiwa" ||
  strContainsSub s "平成" || strContainsSub s "Heisei" ||
  strContainsSub s "昭和" || strContainsSub s "Showa"

/-- The quantity claim C3 says insert_transactions returns: the number of
input rows whose source_hash is not already present in the store before the
call (spec-side definition, stated from the claim's words). -/
def claimedNewCount (store : List String) (records : List CanonicalRecord) : Nat :=
  (records.filter (fun r => decide (r.source_hash ∉ store))).length

/-- A value that is a str, or is falsy (so that len() / slicing is never
reached on it): the precondition under which transform_record cannot
raise. -/
def strOrFalsy (v : PyVal) : Prop :=
  (∃ s, v = PyVal.vStr s) ∨ pyTruthy v = false

/-- A raw record whose MunicipalityCode is a (truthy) int, not a str. -/
def badMuniRecord : RawRecord :=
  fun k => if k = "MunicipalityCode" then some (PyVal.vInt 13103) else none

/-- A well-typed raw record used as a concrete witness input. -/
def goodRecord : RawRecord :=
  fun k =>
    if k = "MunicipalityCode" then some (PyVal.vStr "13103")
    else if k = "TradePrice" then some (PyVal.vStr "250000000")
    else if k = "Type" then some (PyVal.vStr "Office")
    else none

/-- A raw record whose four guarded numeric fields all parse to zero. -/
def zeroFieldsRecord : RawRecord :=
  fun k =>
    if k = "TradePrice" then some (PyVal.vStr "0")
    else if k = "UnitPrice" then some (PyVal.vInt 0)
    else if k = "CoverageRatio" then some (PyVal.vStr "0")
    else if k = "FloorAreaRatio" then some (PyVal.vStr "0")
    else none

/-- Two concrete raw records that agree on every key-tuple field and differ
on every other field. -/
def keyAgreeA : RawRecord :=
  fun k => if k ∈ hashKeyFieldNames then some (PyVal.vStr "key-value")
           else some (PyVal.vStr "other-a")

/-- Companion record of keyAgreeA differing outside the key tuple. -/
def keyAgreeB : RawRecord :=
  fun k => if k ∈ hashKeyFieldNames then some (PyVal.vStr "key-value")
           else some (PyVal.vStr "other-b")

/-- FX oracle: days 10 and 9 are not published, day 8 carries a rate. -/
def c2Oracle : Int → FxResp :=
  fun d => if d = 8 then .ok 1 else .notFound

/-- FX oracle: days 10, 9 and 8 are not published, day 7 carries a rate. -/
def c2WalkOracle : Int → FxResp :=
  fun d => if d = 7 then .ok 2 else .notFound

/-- Probe oracle: only (2025, Q1) is available. -/
def c6Fetch : Int × Nat → Option (List RawRecord) :=
  fun p => if p = ((2025 : Int), 1) then some [] else none

/-- Probe oracle with no available quarter at all. -/
def c6FetchNone : Int × Nat → Option (List RawRecord) :=
  fun _ => none

/-- A canonical record carrying a given source_hash (all other fields
fixed); only the hash affects the loader. -/
def mkRecHash (h : String) : CanonicalRecord :=
  { source_hash := h
    price_classification := "01"
    prefecture_code := "13"
    municipality_code := none
    municipality_name := PyVal.vStr ""
    district_name := PyVal.vNone
    property_type_id := none
    property_type_raw := PyVal.vStr ""
    trade_price := none
    unit_price := none
    area_m2 := none
    total_floor_area_m2 := none
    floor_plan := PyVal.vNone
    building_year := none
    building_structure := PyVal.vNone
    land_shape := PyVal.vNone
    frontage_m := none
    road_direction := PyVal.vNone
    road_type := PyVal.vNone
    road_width_m := none
    city_planning := PyVal.vNone
    coverage_ratio := none
    floor_area_ratio := none
    transaction_year := 2023
    transaction_quarter := none
    transaction_period := PyVal.vNone
    renovation := PyVal.vNone
    remarks := PyVal.vNone }

/-- A batch of 1001 records with pairwise distinct source_hash values: one
more row than one execute_values page. -/
def bigBatch : List CanonicalRecord :=
  (List.range 1001).map (fun i => mkRecHash (String.mk (List.replicate i 'a')))

/-- The canonical record transform_record produces for zeroFieldsRecord
(extracted; the error branch is unreachable). -/
def c9Rec : CanonicalRecord :=
  match transform_record zeroFieldsRecord "13" 2023 (some 1) with
  | .ok rec => rec
  | .error _ => mkRecHash ""

theorem length_byteHexChars (b : Nat) : (byteHexChars b).length = 2 := rfl

theorem length_flatMap_byteHex (l : List Nat) :
    (l.flatMap byteHexChars).length = 2 * l.length := by
  induction l with
  | nil => rfl
  | cons b bs ih =>
      simp only [List.flatMap_cons, List.length_append, ih, length_byteHexChars,
        List.length_cons]
      omega

theorem length_digestBytes (st : Sha256State) : (digestBytes st).length = 32 := by
  simp [digestBytes, wordBytes]

theorem length_sha256Digest (m : List Nat) : (sha256Digest m).length = 32 := by
  unfold sha256Digest
  exact length_digestBytes _

theorem length_sha256Hexdigest_data (m : List Nat) :
    (sha256Hexdigest m).data.length = 64 := by
  show ((sha256Digest m).flatMap byteHexChars).length = 64
  rw [length_flatMap_byteHex, length_sha256Digest]

theorem hexDigitChar_mem (n : Nat) : hexDigitChar n ∈ "0123456789abcdef".data := by
  unfold hexDigitChar
  by_cases h : n < 16
  · interval_cases n <;> decide
  · rw [List.getD_eq_default]
    · decide
    · exact le_trans (by decide) (Nat.le_of_not_lt h)

theorem mem_hexAlphabet_of_mem_byteHex (c : Char) (b : Nat)
    (h : c ∈ byteHexChars b) : c ∈ "0123456789abcdef".data := by
  simp only [byteHexChars, List.mem_cons, List.not_mem_nil, or_false] at h
  rcases h with h | h <;> (subst h; exact hexDigitChar_mem _)

/-- C5: the content hash is deterministic, depends only on the seven key
fields (two records agreeing on MunicipalityCode, DistrictName, TradePrice,
Area, Period, BuildingYear and Type hash equally whatever their other
fields), and is a 32-character lower-case-hex digest.  The complementary
clause of the claim — records differing in a key field collide only with
negligible probability — is a probabilistic statement about SHA-256 and is
not re-proved here. -/
theorem C5_hash_stability :
    ∀ r r' : RawRecord,
      generate_record_hash r = generate_record_hash r ∧
      ((∀ k ∈ hashKeyFieldNames, r k = r' k) →
        generate_record_hash r = generate_record_hash r') ∧
      (generate_record_hash r).length = 32 ∧
      ∀ c ∈ (generate_record_hash r).data, c ∈ "0123456789abcdef".data := by
  intro r r'
  refine ⟨rfl, ?_, ?_, ?_⟩
  · intro hagree
    have hkey : hashKeyString r = hashKeyString r' := by
      unfold hashKeyString
      have : hashKeyFieldNames.map (pyGet r) = hashKeyFieldNames.map (pyGet r') :=
        List.map_congr_left (fun k hk => by unfold pyGet; rw [hagree k hk])
      rw [this]
    unfold generate_record_hash
    rw [hkey]
  · show ((sha256Hexdigest (utf8Bytes (hashKeyString r))).data.take 32).length = 32
    rw [List.length_take, length_sha256Hexdigest_data]
    decide
  · intro c hc
    have hc' : c ∈ (sha256Hexdigest (utf8Bytes (hashKeyString r))).data :=
      List.mem_of_mem_take hc
    have hc'' : c ∈ (sha256Digest (utf8Bytes (hashKeyString r))).flatMap byteHexChars := hc'
    rcases List.mem_flatMap.mp hc'' with ⟨b, _, hb⟩
    exact mem_hexAlphabet_of_mem_byteHex c b hb

theorem C5_hash_stability_witness :
    generate_record_hash keyAgreeA = generate_record_hash keyAgreeB :=
  (C5_hash_stability keyAgreeA keyAgreeB).2.1 (by decide)

/-- C9: whenever one of the four guarded numeric fields TradePrice,
UnitPrice, CoverageRatio, FloorAreaRatio parses to the number 0, the
truthiness-guarded int() conversion stores null for it, exactly as it does
when the field is absent or unparsable. -/
theorem C9_zero_is_null :
    ∀ (r : RawRecord) (pc : String) (y : Int) (q : Option Int)
      (rec : CanonicalRecord),
      transform_record r pc y q = .ok rec →
      (parse_numeric (pyGet r "TradePrice") = some 0 → rec.trade_price = none) ∧
      (parse_numeric (pyGet r "UnitPrice") = some 0 → rec.unit_price = none) ∧
      (parse_numeric (pyGet r "CoverageRatio") = some 0 → rec.coverage_ratio = none) ∧
      (parse_numeric (pyGet r "FloorAreaRatio") = some 0 → rec.floor_area_ratio = none) ∧
      (parse_numeric (pyGet r "TradePrice") = none → rec.trade_price = none) := by
  intro r pc y q rec h
  unfold transform_record at h
  rcases hM : muniCodeField (pyGetD r "MunicipalityCode" (PyVal.vStr "")) with e | mc
  · rw [hM] at h; simp at h
  · rw [hM] at h
    rcases hP : priceClassField r with e | pcl
    · rw [hP] at h; simp at h
    · rw [hP] at h
      simp only [Except.ok.injEq] at h
      subst h
      refine ⟨fun hz => ?_, fun hz => ?_, fun hz => ?_, fun hz => ?_, fun hz => ?_⟩ <;>
        simp only [intIfTruthy, hz] <;> simp [intIfTruthy]

theorem C9_zero_is_null_witness :
    c9Rec.trade_price = none ∧ c9Rec.unit_price = none ∧
    c9Rec.coverage_ratio = none ∧ c9Rec.floor_area_ratio = none := by
  have h : transform_record zeroFieldsRecord "13" 2023 (some 1) = .ok c9Rec := rfl
  have hc := C9_zero_is_null zeroFieldsRecord "13" 2023 (some 1) c9Rec h
  exact ⟨hc.1 (by decide), hc.2.1 (by decide), hc.2.2.1 (by decide),
    hc.2.2.2.1 (by decide)⟩

theorem leadsWith_mem {pat l : List Char} (h : leadsWith pat l = true) :
    ∀ c ∈ pat, c ∈ l := by
  induction pat generalizing l with
  | nil => intro c hc; cases hc
  | cons p ps ih =>
      cases l with
      | nil => cases h
      | cons x xs =>
          simp only [leadsWith, Bool.and_eq_true, beq_iff_eq] at h
          intro c hc
          rcases List.mem_cons.mp hc with hc | hc
          · exact List.mem_cons.mpr (Or.inl (hc.trans h.1))
          · exact List.mem_cons.mpr (Or.inr (ih h.2 c hc))

theorem mem_of_listContainsSub {pat hay : List Char}
    (h : listContainsSub pat hay = true) : ∀ c ∈ pat, c ∈ hay := by
  induction hay with
  | nil =>
      intro c hc
      simp only [listContainsSub, List.isEmpty_iff] at h
      subst h; cases hc
  | cons a as ih =>
      simp only [listContainsSub, Bool.or_eq_true] at h
      intro c hc
      rcases h with h | h
      · exact leadsWith_mem h c hc
      · exact List.mem_cons.mpr (Or.inr (ih h c hc))

theorem mem_of_strContainsSub {s pat : String}
    (h : strContainsSub s pat = true) {c : Char} (hc : c ∈ pat.data) :
    c ∈ s.data :=
  mem_of_listContainsSub h c hc

theorem mem_dropWhile_of_neg {p : Char → Bool} {l : List Char} {c : Char}
    (h : c ∈ l) (hc : p c = false) : c ∈ l.dropWhile p := by
  have hsplit : l.takeWhile p ++ l.dropWhile p = l := List.takeWhile_append_dropWhile p l
  rcases List.mem_append.mp (hsplit ▸ h) with h' | h'
  · have := List.mem_takeWhile_imp h'
    rw [hc] at this; cases this
  · exact h'

theorem mem_pyStrip_of_neg {l : List Char} {c : Char} (h : c ∈ l)
    (hc : isPySpace c = false) : c ∈ pyStripChars l := by
  unfold pyStripChars
  rw [List.mem_reverse]
  exact mem_dropWhile_of_neg (List.mem_reverse.mpr (mem_dropWhile_of_neg h hc)) hc

theorem mem_of_mem_pyStrip {l : List Char} {c : Char}
    (h : c ∈ pyStripChars l) : c ∈ l := by
  unfold pyStripChars at h
  rw [List.mem_reverse] at h
  have h1 := List.Sublist.subset (List.dropWhile_sublist isPySpace) h
  rw [List.mem_reverse] at h1
  exact List.Sublist.subset (List.dropWhile_sublist isPySpace) h1

theorem all_digits_false_of_mem {c : Char} {ds : List Char} (hmem : c ∈ ds)
    (h1 : c.isDigit = false) : ds.all Char.isDigit = false := by
  rcases hall : ds.all Char.isDigit with _ | _
  · rfl
  · have := List.all_eq_true.mp hall c hmem
    rw [h1] at this; cases this

theorem intDigits_none_of_mem {c : Char} {ds : List Char} (hmem : c ∈ ds)
    (h1 : c.isDigit = false) : intDigits ds = none := by
  unfold intDigits
  rw [all_digits_false_of_mem hmem h1]
  by_cases hde : ds.isEmpty <;> simp [hde]

theorem pyInt_none_of_bad_char (s : String) (c : Char) (hmem : c ∈ s.data)
    (h1 : c.isDigit = false) (h2 : c ≠ '+') (h3 : c ≠ '-')
    (h4 : isPySpace c = false) : pyIntOfString s = none := by
  have hc : c ∈ pyStripChars s.data := mem_pyStrip_of_neg hmem h4
  unfold pyIntOfString
  rcases hm : pyStripChars s.data with _ | ⟨x, ds⟩
  · rfl
  · rw [hm] at hc
    simp only [pyIntChars]
    rcases List.mem_cons.mp hc with rfl | hcds
    · rw [if_neg h2, if_neg h3]
      exact intDigits_none_of_mem (List.mem_cons_self c ds) h1
    · by_cases hx1 : x = '+'
      · rw [if_pos hx1]
        exact intDigits_none_of_mem hcds h1
      · by_cases hx2 : x = '-'
        · rw [if_neg hx1, if_pos hx2, intDigits_none_of_mem hcds h1]
          rfl
        · rw [if_neg hx1, if_neg hx2]
          exact intDigits_none_of_mem (List.mem_cons.mpr (Or.inr hcds)) h1

theorem pyInt_some_has_digit {s : String} {y : Int}
    (h : pyIntOfString s = some y) : ∃ c ∈ s.data, c.isDigit = true := by
  unfold pyIntOfString at h
  have key : ∀ L : List Char, (∀ z ∈ L, z ∈ s.data) → ∀ y' : Int,
      intDigits L = some y' → ∃ c ∈ s.data, c.isDigit = true := by
    intro L hsub y' hL
    by_cases he : L.isEmpty
    · rw [intDigits, if_pos he] at hL; cases hL
    · by_cases ha : L.all Char.isDigit
      · rcases L with _ | ⟨z, zs⟩
        · exact absurd rfl he
        · exact ⟨z, hsub z (List.mem_cons_self z zs),
            List.all_eq_true.mp ha z (List.mem_cons_self z zs)⟩
      · rw [intDigits, if_neg he, if_neg ha] at hL; cases hL
  rcases hm : pyStripChars s.data with _ | ⟨x, ds⟩
  · rw [hm] at h; cases h
  · rw [hm] at h
    have hsub : ∀ z, z ∈ x :: ds → z ∈ s.data := by
      intro z hz
      exact mem_of_mem_pyStrip (hm ▸ hz)
    simp only [pyIntChars] at h
    split_ifs at h with h1 h2
    · exact key ds (fun z hz => hsub z (List.mem_cons.mpr (Or.inr hz))) y h
    · rcases Option.map_eq_some'.mp h with ⟨y', hy', _⟩
      exact key ds (fun z hz => hsub z (List.mem_cons.mpr (Or.inr hz))) y' hy'
    · exact key (x :: ds) hsub y h

theorem pyInt_none_of_marker {s m : String} {c : Char}
    (hm : strContainsSub s m = true) (hcm : c ∈ m.data)
    (h1 : c.isDigit = false) (h2 : c ≠ '+') (h3 : c ≠ '-')
    (h4 : isPySpace c = false) : pyIntOfString s = none :=
  pyInt_none_of_bad_char s c (mem_of_strContainsSub hm hcm) h1 h2 h3 h4

theorem ne_empty_of_marker {s m : String} {c : Char}
    (hm : strContainsSub s m = true) (hcm : c ∈ m.data) : s ≠ "" := by
  intro he
  subst he
  exact (List.not_mem_nil c) (mem_of_strContainsSub hm hcm)

theorem parse_building_year_vStr (s : String) (hne : s ≠ "") :
    parse_building_year (PyVal.vStr s)
      = match pyIntOfString s with
        | some y => if 1900 ≤ y ∧ y ≤ 2100 then some y else eraResolve s
        | none => eraResolve s := by
  simp [parse_building_year, pyTruthy, pyIntOfVal, pyStr, hne]

theorem pbyear_plain {s : String} {y : Int} (h : pyIntOfString s = some y)
    (h1 : 1900 ≤ y) (h2 : y ≤ 2100) :
    parse_building_year (PyVal.vStr s) = some y := by
  have hne : s ≠ "" := by
    intro he; subst he
    rw [show pyIntOfString "" = none from rfl] at h; cases h
  rw [parse_building_year_vStr s hne, h]
  simp [h1, h2]

theorem pbyear_era_of_pyInt_none {s : String} (hne : s ≠ "")
    (hint : pyIntOfString s = none) :
    parse_building_year (PyVal.vStr s) = eraResolve s := by
  rw [parse_building_year_vStr s hne, hint]

theorem isEmpty_false_of_ne_nil {α : Type} {l : List α} (h : l ≠ []) :
    l.isEmpty = false := by
  cases l with
  | nil => exact absurd rfl h
  | cons a as => rfl

theorem pbyear_reiwa {s : String}
    (hmark : (strContainsSub s "令和" || strContainsSub s "Reiwa") = true)
    (hd : eraDigits s ≠ []) :
    parse_building_year (PyVal.vStr s)
      = some (2018 + (digitsVal (eraDigits s) : Int)) := by
  have hie := isEmpty_false_of_ne_nil hd
  rcases Bool.or_eq_true_iff.mp hmark with h | h
  · have hne := ne_empty_of_marker h (show '令' ∈ ("令和" : String).data by decide)
    have hint := pyInt_none_of_marker h (show '令' ∈ ("令和" : String).data by decide)
      (by decide) (by decide) (by decide) (by decide)
    rw [pbyear_era_of_pyInt_none hne hint]
    simp [eraResolve, hmark, hie]
  · have hne := ne_empty_of_marker h (show 'R' ∈ ("Reiwa" : String).data by decide)
    have hint := pyInt_none_of_marker h (show 'R' ∈ ("Reiwa" : String).data by decide)
      (by decide) (by decide) (by decide) (by decide)
    rw [pbyear_era_of_pyInt_none hne hint]
    simp [eraResolve, hmark, hie]

theorem pbyear_heisei {s : String}
    (hmark1 : (strContainsSub s "令和" || strContainsSub s "Reiwa") = false)
    (hmark : (strContainsSub s "平成" || strContainsSub s "Heisei") = true)
    (hd : eraDigits s ≠ []) :
    parse_building_year (PyVal.vStr s)
      = some (1988 + (digitsVal (eraDigits s) : Int)) := by
  have hie := isEmpty_false_of_ne_nil hd
  rcases Bool.or_eq_true_iff.mp hmark with h | h
  · have hne := ne_empty_of_marker h (show '平' ∈ ("平成" : String).data by decide)
    have hint := pyInt_none_of_marker h (show '平' ∈ ("平成" : String).data by decide)
      (by decide) (by decide) (by decide) (by decide)
    rw [pbyear_era_of_pyInt_none hne hint]
    simp [eraResolve, hmark1, hmark, hie]
  · have hne := ne_empty_of_marker h (show 'H' ∈ ("Heisei" : String).data by decide)
    have hint := pyInt_none_of_marker h (show 'H' ∈ ("Heisei" : String).data by decide)
      (by decide) (by decide) (by decide) (by decide)
    rw [pbyear_era_of_pyInt_none hne hint]
    simp [eraResolve, hmark1, hmark, hie]

theorem pbyear_showa {s : String}
    (hmark1 : (strContainsSub s "令和" || strContainsSub s "Reiwa") = false)
    (hmark2 : (strContainsSub s "平成" || strContainsSub s "Heisei") = false)
    (hmark : (strContainsSub s "昭和" || strContainsSub s "Showa") = true)
    (hd : eraDigits s ≠ []) :
    parse_building_year (PyVal.vStr s)
      = some (1925 + (digitsVal (eraDigits s) : Int)) := by
  have hie := isEmpty_false_of_ne_nil hd
  rcases Bool.or_eq_true_iff.mp hmark with h | h
  · have hne := ne_empty_of_marker h (show '昭' ∈ ("昭和" : String).data by decide)
    have hint := pyInt_none_of_marker h (show '昭' ∈ ("昭和" : String).data by decide)
      (by decide) (by decide) (by decide) (by decide)
    rw [pbyear_era_of_pyInt_none hne hint]
    simp [eraResolve, hmark1, hmark2, hmark, hie]
  · have hne := ne_empty_of_marker h (show 'S' ∈ ("Showa" : String).data by decide)
    have hint := pyInt_none_of_marker h (show 'S' ∈ ("Showa" : String).data by decide)
      (by decide) (by decide) (by decide) (by decide)
    rw [pbyear_era_of_pyInt_none hne hint]
    simp [eraResolve, hmark1, hmark2, hmark, hie]

theorem eraResolve_none_of_no_marker {s : String} (hm : hasEraMarker s = false) :
    eraResolve s = none := by
  unfold hasEraMarker at hm
  simp only [Bool.or_eq_false_iff] at hm
  obtain ⟨⟨⟨⟨⟨h1, h2⟩, h3⟩, h4⟩, h5⟩, h6⟩ := hm
  simp [eraResolve, h1, h2, h3, h4, h5, h6]

theorem eraResolve_none_of_no_digits {s : String} (hd : eraDigits s = []) :
    eraResolve s = none := by
  have hie : (eraDigits s).isEmpty = true := by rw [hd]; rfl
  simp [eraResolve, hie]

/-- C7: parse_building_year returns a plain year unchanged when int() parses
it into [1900, 2100]; otherwise an era-marked string maps to the era's
fixed offset (Reiwa 2018, Heisei 1988, Showa 1925, tried in that order)
plus the numeral embedded in its digits — in particular Reiwa numeral 5
gives 2023 and plain 1987 gives 1987 — and a string with no matching
marker, or with no digits, gives null. -/
theorem C7_era_year_resolution :
    (∀ (s : String) (y : Int), pyIntOfString s = some y → 1900 ≤ y → y ≤ 2100 →
        parse_building_year (PyVal.vStr s) = some y) ∧
    (∀ s : String, (strContainsSub s "令和" || strContainsSub s "Reiwa") = true →
        eraDigits s ≠ [] →
        parse_building_year (PyVal.vStr s)
          = some (2018 + (digitsVal (eraDigits s) : Int))) ∧
    (∀ s : String, (strContainsSub s "令和" || strContainsSub s "Reiwa") = false →
        (strContainsSub s "平成" || strContainsSub s "Heisei") = true →
        eraDigits s ≠ [] →
        parse_building_year (PyVal.vStr s)
          = some (1988 + (digitsVal (eraDigits s) : Int))) ∧
    (∀ s : String, (strContainsSub s "令和" || strContainsSub s "Reiwa") = false →
        (strContainsSub s "平成" || strContainsSub s "Heisei") = false →
        (strContainsSub s "昭和" || strContainsSub s "Showa") = true →
        eraDigits s ≠ [] →
        parse_building_year (PyVal.vStr s)
          = some (1925 + (digitsVal (eraDigits s) : Int))) ∧
    parse_building_year (PyVal.vStr "Reiwa 5") = some 2023 ∧
    parse_building_year (PyVal.vStr "1987") = some 1987 ∧
    (∀ s : String, hasEraMarker s = false →
        (∀ y : Int, pyIntOfString s = some y → y < 1900 ∨ 2100 < y) →
        parse_building_year (PyVal.vStr s) = none) ∧
    (∀ s : String, eraDigits s = [] →
        parse_building_year (PyVal.vStr s) = none) := by
  refine ⟨fun s y h h1 h2 => pbyear_plain h h1 h2,
    fun s h hd => pbyear_reiwa h hd,
    fun s h1 h hd => pbyear_heisei h1 h hd,
    fun s h1 h2 h hd => pbyear_showa h1 h2 h hd,
    by decide, by decide, ?_, ?_⟩
  · intro s hm hrange
    by_cases hne : s = ""
    · subst hne; rfl
    · rw [parse_building_year_vStr s hne]
      rcases hI : pyIntOfString s with _ | y
      · exact eraResolve_none_of_no_marker hm
      · show (if 1900 ≤ y ∧ y ≤ 2100 then some y else eraResolve s) = none
        rw [if_neg ?_]
        · exact eraResolve_none_of_no_marker hm
        · rcases hrange y hI with h | h <;> omega
  · intro s hd
    by_cases hne : s = ""
    · subst hne; rfl
    · rw [parse_building_year_vStr s hne]
      rcases hI : pyIntOfString s with _ | y
      · exact eraResolve_none_of_no_digits hd
      · exfalso
        rcases pyInt_some_has_digit hI with ⟨c, hc, hcd⟩
        have : c ∈ eraDigits s := List.mem_filter.mpr ⟨hc, hcd⟩
        rw [hd] at this
        exact (List.not_mem_nil c) this

theorem C7_era_year_resolution_witness :
    parse_building_year (PyVal.vStr "2000") = some 2000 :=
  C7_era_year_resolution.1 "2000" 2000 (by decide) (by decide) (by decide)

/-- C10: whenever the era branch fires, the numeral added to the era offset
is the concatenation of every digit character of the whole string in order,
so a Reiwa string carrying the digits 5 and 3 resolves to 2018 + 53 = 2071,
not 2018 + 5. -/
theorem C10_digit_concatenation :
    (∀ s : String, (strContainsSub s "令和" || strContainsSub s "Reiwa") = true →
        eraDigits s ≠ [] →
        parse_building_year (PyVal.vStr s)
          = some (2018 + (digitsVal (eraDigits s) : Int))) ∧
    parse_building_year (PyVal.vStr "令和5年3月") = some 2071 ∧
    eraDigits "令和5年3月" = ['5', '3'] ∧
    digitsVal ['5', '3'] = 53 :=
  ⟨fun s h hd => pbyear_reiwa h hd, by decide, by decide, by decide⟩

theorem C10_digit_concatenation_witness :
    parse_building_year (PyVal.vStr "Reiwa 5.3")
      = some (2018 + (digitsVal (eraDigits "Reiwa 5.3") : Int)) :=
  C10_digit_concatenation.1 "Reiwa 5.3" (by decide) (by decide)

/-- C2 counterexample: with days 10 and 9 not published and day 8 published,
fetch_fx_rate started at day 10 does not stop after the single retry at day
9 — it issues a third request at day 8 (a second fallback day) and records
that day's rate. -/
theorem C2_counterexample :
    fetch_fx_rate c2Oracle 10 10 3 = (some 1, [10, 9, 8]) ∧
    (fetch_fx_rate c2Oracle 10 10 3).1 ≠ none ∧
    ((10 : Int) - 2) ∈ (fetch_fx_rate c2Oracle 10 10 3).2 := by
  refine ⟨?_, ?_, ?_⟩ <;> decide

theorem range_map_sub_succ (d : Int) (n : Nat) :
    d :: (List.range n).map (fun j : Nat => d - 1 - (j : Int))
      = (List.range (n + 1)).map (fun j : Nat => d - (j : Int)) := by
  rw [List.range_succ_eq_map]
  simp only [List.map_cons, Nat.cast_zero, sub_zero, List.map_map]
  congr 1
  apply List.map_congr_left
  intro j hj
  simp only [Function.comp_apply]
  push_cast
  ring

/-- C2 amended: a not-found response for the requested date triggers an
immediate retry against the prior calendar day (with retry budget 1), and a
not-found response on that retry recurses again: consecutive not-found days
produce an unbounded day-by-day backward walk that ends at the first
non-404 day, whose rate (if any) is recorded.  Concretely, if days d, d-1,
..., d-k are all not found and day d-(k+1) carries rate r, the call
requests exactly the k+2 days d, d-1, ..., d-(k+1) in order and returns r. -/
theorem C2_fx_unbounded_walk :
    ∀ (k : Nat) (resp : Int → FxResp) (d : Int) (r : ℚ) (fuel mr : Nat),
      1 ≤ mr → k + 2 ≤ fuel →
      (∀ j : Nat, j ≤ k → resp (d - j) = .notFound) →
      resp (d - (k + 1 : Nat)) = .ok r →
      fetch_fx_rate resp fuel d mr
        = (some r, (List.range (k + 2)).map (fun j : Nat => d - (j : Int))) := by
  intro k
  induction k with
  | zero =>
      intro resp d r fuel mr hmr hfuel hnf hok
      obtain ⟨f, rfl⟩ : ∃ f, fuel = f + 1 := ⟨fuel - 1, by omega⟩
      obtain ⟨f', rfl⟩ : ∃ f', f = f' + 1 := ⟨f - 1, by omega⟩
      obtain ⟨m, rfl⟩ : ∃ m, mr = m + 1 := ⟨mr - 1, by omega⟩
      have h0 : resp d = .notFound := by
        have := hnf 0 (le_refl 0)
        simpa using this
      have h1 : resp (d - 1) = .ok r := by
        have := hok
        simpa using this
      unfold fetch_fx_rate
      simp only [fxLoop, h0, h1]
      simp [List.range_succ]
  | succ k ih =>
      intro resp d r fuel mr hmr hfuel hnf hok
      obtain ⟨f, rfl⟩ : ∃ f, fuel = f + 1 := ⟨fuel - 1, by omega⟩
      obtain ⟨m, rfl⟩ : ∃ m, mr = m + 1 := ⟨mr - 1, by omega⟩
      have h0 : resp d = .notFound := by
        have := hnf 0 (by omega)
        simpa using this
      have hrec := ih resp (d - 1) r f 1 (le_refl 1) (by omega)
        (fun j hj => by
          have h := hnf (j + 1) (by omega)
          have he : d - 1 - (j : Int) = d - ((j + 1 : Nat) : Int) := by
            push_cast; ring
          rw [he]
          exact h)
        (by
          have he : d - 1 - ((k + 1 : Nat) : Int) = d - ((k + 1 + 1 : Nat) : Int) := by
            push_cast; ring
          rw [he]
          exact hok)
      unfold fetch_fx_rate at hrec
      unfold fetch_fx_rate
      simp only [fxLoop, h0, hrec]
      rw [Prod.mk.injEq]
      refine ⟨rfl, ?_⟩
      rw [show k + 1 + 2 = (k + 2) + 1 from rfl]
      exact range_map_sub_succ d (k + 2)

theorem C2_fx_unbounded_walk_witness :
    fetch_fx_rate c2WalkOracle 10 10 3
      = (some 2, (List.range 4).map (fun j : Nat => (10 : Int) - (j : Int))) :=
  C2_fx_unbounded_walk 2 c2WalkOracle 10 2 10 3 (by decide) (by decide)
    (fun j hj => by interval_cases j <;> decide) (by decide)

theorem probeGo_spec (fetch : Int × Nat → Option (List RawRecord)) :
    ∀ (n : Nat) (p : Int × Nat),
      (probeGo fetch n p).2.length ≤ n ∧
      (probeGo fetch n p).2
        = (List.range (probeGo fetch n p).2.length).map
            (fun i => prevQuarter^[i] p) ∧
      (match (probeGo fetch n p).1 with
       | some q =>
           fetch q ≠ none ∧
           ∃ i, i < n ∧ q = prevQuarter^[i] p ∧
             ∀ j, j < i → fetch (prevQuarter^[j] p) = none
       | none => ∀ i, i < n → fetch (prevQuarter^[i] p) = none) := by
  intro n
  induction n with
  | zero =>
      intro p
      exact ⟨le_refl 0, rfl, fun i hi => absurd hi (Nat.not_lt_zero i)⟩
  | succ n ih =>
      intro p
      rcases hf : fetch p with _ | v
      · have hg : probeGo fetch (n + 1) p
            = ((probeGo fetch n (prevQuarter p)).1,
               p :: (probeGo fetch n (prevQuarter p)).2) := by
          simp [probeGo, hf]
        obtain ⟨ihlen, ihlist, ihres⟩ := ih (prevQuarter p)
        rw [hg]
        refine ⟨by simpa using Nat.succ_le_succ ihlen, ?_, ?_⟩
        · simp only [List.length_cons]
          rw [List.range_succ_eq_map]
          simp only [List.map_cons, Function.iterate_zero, id_eq, List.map_map]
          congr 1
        · rcases hr : (probeGo fetch n (prevQuarter p)).1 with _ | q
          · rw [hr] at ihres
            intro i hi
            rcases i with _ | i
            · simpa using hf
            · rw [Function.iterate_succ_apply]
              exact ihres i (by omega)
          · rw [hr] at ihres
            obtain ⟨hne, i, hi, hq, hprev⟩ := ihres
            refine ⟨hne, i + 1, by omega, ?_, ?_⟩
            · rw [Function.iterate_succ_apply]; exact hq
            · intro j hj
              rcases j with _ | j
              · simpa using hf
              · rw [Function.iterate_succ_apply]
                exact hprev j (by omega)
      · have hg : probeGo fetch (n + 1) p = (some p, [p]) := by
          simp [probeGo, hf]
        rw [hg]
        refine ⟨by simp, by simp [List.range_succ], ?_⟩
        refine ⟨?_, 0, by omega, ?_, ?_⟩
        · rw [hf]; exact fun h => Option.noConfusion h
        · rfl
        · intro j hj
          exact absurd hj (Nat.not_lt_zero j)

/-- C6: the period probe starts from the most recently completed calendar
quarter relative to now (the greatest (year, quarter) whose final month 3q
lies strictly before the current month, rolling to Q4 of the previous year
in Q1), walks backward quarter by quarter wrapping year boundaries, issues
at most 4 fetch attempts, returns the first probed quarter whose fetch is
not Unavailable, and returns none — without throwing — when all 4 probed
quarters are unavailable. -/
theorem C6_latest_quarter_probe :
    ∀ (fetch : Int × Nat → Option (List RawRecord)) (year : Int) (month : Nat),
      1 ≤ month → month ≤ 12 →
      (let start := startPeriod year month
       let res := find_latest_available_quarter fetch year month
       ((start.1 < year ∨ (start.1 = year ∧ 3 * start.2 < month)) ∧
        1 ≤ start.2 ∧ start.2 ≤ 4 ∧
        (∀ p : Int × Nat, 1 ≤ p.2 → p.2 ≤ 4 →
          (p.1 < year ∨ (p.1 = year ∧ 3 * p.2 < month)) →
          (p.1 < start.1 ∨ (p.1 = start.1 ∧ p.2 ≤ start.2)))) ∧
       res.2.length ≤ 4 ∧
       res.2 = (List.range res.2.length).map (fun i => prevQuarter^[i] start) ∧
       (match res.1 with
        | some q =>
            fetch q ≠ none ∧
            ∃ i, i < 4 ∧ q = prevQuarter^[i] start ∧
              ∀ j, j < i → fetch (prevQuarter^[j] start) = none
        | none => ∀ i, i < 4 → fetch (prevQuarter^[i] start) = none)) := by
  intro fetch year month h1 h2
  refine ⟨?_, ?_⟩
  · simp only [startPeriod]
    split
    · next hq =>
        refine ⟨Or.inl (by omega), by omega, by omega, ?_⟩
        intro p hp1 hp2 hp3
        rcases hp3 with h | ⟨he, hlt⟩ <;> omega
    · next hq =>
        refine ⟨Or.inr ⟨rfl, by omega⟩, by omega, by omega, ?_⟩
        intro p hp1 hp2 hp3
        rcases hp3 with h | ⟨he, hlt⟩ <;> omega
  · exact probeGo_spec fetch 4 (startPeriod year month)

theorem C6_latest_quarter_probe_witness :
    (find_latest_available_quarter c6Fetch 2025 10).2.length ≤ 4 :=
  (C6_latest_quarter_probe c6Fetch 2025 10 (by decide) (by decide)).2.1

/-- C4 counterexample: a raw record whose MunicipalityCode is the int 13103
(truthy, not a str) makes transform_record raise TypeError at len(), so the
transformer is not total over arbitrarily typed fields. -/
theorem C4_counterexample :
    transform_record badMuniRecord "13" 2023 (some 1)
      = Except.error PyErr.typeError := rfl

theorem muniCodeField_ok {v : PyVal} (h : strOrFalsy v) :
    ∃ o, muniCodeField v = Except.ok o := by
  rcases h with ⟨s, rfl⟩ | h
  · unfold muniCodeField
    by_cases ht : pyTruthy (PyVal.vStr s)
    · rw [if_pos ht]
      by_cases hl : s.length = 5
      · refine ⟨some s, ?_⟩
        show (if s.length = 5 then (Except.ok (some s) : Except PyErr (Option String))
              else Except.ok none) = Except.ok (some s)
        rw [if_pos hl]
      · refine ⟨none, ?_⟩
        show (if s.length = 5 then (Except.ok (some s) : Except PyErr (Option String))
              else Except.ok none) = Except.ok none
        rw [if_neg hl]
    · exact ⟨none, by rw [if_neg ht]⟩
  · exact ⟨none, by unfold muniCodeField; rw [h]; simp⟩

theorem priceClassField_ok {r : RawRecord}
    (h : strOrFalsy (pyGet r "PriceCategory")) :
    ∃ s, priceClassField r = Except.ok s := by
  unfold priceClassField
  by_cases ht : pyTruthy (pyGet r "PriceCategory")
  · rw [if_pos ht]
    rcases h with ⟨s, hs⟩ | hfalsy
    · have hv : pyGetD r "PriceCategory" (PyVal.vStr "01") = PyVal.vStr s := by
        unfold pyGet at hs
        unfold pyGetD
        rcases hr : r "PriceCategory" with _ | v
        · rw [hr] at hs
          exact absurd hs (by simp [Option.getD])
        · rw [hr] at hs
          simpa using hs
      rw [hv]
      exact ⟨String.mk (s.data.take 2), rfl⟩
    · exact absurd hfalsy (by simp [ht])
  · rw [if_neg ht]
    exact ⟨"01", rfl⟩

/-- C4 amended: transform_record is total — it returns a canonical record
rather than raising — for every raw record whose MunicipalityCode and
PriceCategory fields are strings or falsy, whatever the types and values of
all other fields (their malformed values are absorbed into null); but a
truthy non-str MunicipalityCode or PriceCategory raises TypeError, as the
counterexample shows. -/
theorem C4_transform_total_amended :
    ∀ (r : RawRecord) (pc : String) (y : Int) (q : Option Int),
      strOrFalsy (pyGetD r "MunicipalityCode" (PyVal.vStr "")) →
      strOrFalsy (pyGet r "PriceCategory") →
      ∃ rec, transform_record r pc y q = Except.ok rec := by
  intro r pc y q hmuni hprice
  obtain ⟨o, ho⟩ := muniCodeField_ok hmuni
  obtain ⟨s, hs⟩ := priceClassField_ok hprice
  unfold transform_record
  rw [ho, hs]
  exact ⟨_, rfl⟩

theorem C4_transform_total_amended_witness :
    ∃ rec, transform_record goodRecord "13" 2023 (some 1) = Except.ok rec :=
  C4_transform_total_amended goodRecord "13" 2023 (some 1)
    (Or.inl ⟨"13103", rfl⟩) (Or.inr rfl)

theorem ensure_munis_transactions (st : Store) (c : String) :
    (ensure_municipality_exists st c).transactions = st.transactions := by
  unfold ensure_municipality_exists
  split
  · rfl
  · split <;> rfl

theorem ensure_munis_mono {st : Store} {x : String} (h : x ∈ st.municipalities)
    (c : String) : x ∈ (ensure_municipality_exists st c).municipalities := by
  unfold ensure_municipality_exists
  split
  · exact h
  · split
    · exact h
    · exact List.mem_append.mpr (Or.inl h)

theorem ensure_munis_self {st : Store} {c : String} (h : c.length = 5) :
    c ∈ (ensure_municipality_exists st c).municipalities := by
  unfold ensure_municipality_exists
  rw [if_neg (by simp [h])]
  split
  · next hmem => exact hmem
  · exact List.mem_append.mpr (Or.inr (List.mem_singleton.mpr rfl))

theorem upsertMunis_transactions :
    ∀ (rs : List CanonicalRecord) (st : Store) (seen : List String),
      (upsertMunis st seen rs).transactions = st.transactions := by
  intro rs
  induction rs with
  | nil => intro st seen; rfl
  | cons r rs ih =>
      intro st seen
      rcases hrc : r.municipality_code with _ | c
      · simp only [upsertMunis, hrc]
        exact ih st seen
      · simp only [upsertMunis, hrc]
        split
        · rw [ih, ensure_munis_transactions]
        · exact ih st seen

theorem upsertMunis_mono :
    ∀ (rs : List CanonicalRecord) (st : Store) (seen : List String) {x : String},
      x ∈ st.municipalities → x ∈ (upsertMunis st seen rs).municipalities := by
  intro rs
  induction rs with
  | nil => intro st seen x h; exact h
  | cons r rs ih =>
      intro st seen x h
      rcases hrc : r.municipality_code with _ | c
      · simp only [upsertMunis, hrc]
        exact ih st seen h
      · simp only [upsertMunis, hrc]
        split
        · exact ih _ _ (ensure_munis_mono h c)
        · exact ih st seen h

theorem upsertMunis_covers :
    ∀ (rs : List CanonicalRecord) (st : Store) (seen : List String),
      (∀ c ∈ seen, c.length = 5 → c ∈ st.municipalities) →
      ∀ r ∈ rs, ∀ c, r.municipality_code = some c → c.length = 5 →
        c ∈ (upsertMunis st seen rs).municipalities := by
  intro rs
  induction rs with
  | nil => intro st seen _ r hr; cases hr
  | cons r0 rs ih =>
      intro st seen hinv r hr c hc hlen
      rcases List.mem_cons.mp hr with rfl | hr'
      · simp only [upsertMunis, hc]
        split
        · exact upsertMunis_mono rs _ _ (ensure_munis_self hlen)
        · next hcond =>
            push_neg at hcond
            have hcseen : c ∈ seen := by
              by_cases hce : c = ""
              · subst hce; exact absurd hlen (by decide)
              · exact hcond hce
            exact upsertMunis_mono rs st seen (hinv c hcseen hlen)
      · rcases hc0 : r0.municipality_code with _ | c0
        · simp only [upsertMunis, hc0]
          exact ih st seen hinv r hr' c hc hlen
        · simp only [upsertMunis, hc0]
          split
          · apply ih _ _ ?_ r hr' c hc hlen
            intro c' hc' hlen'
            rcases List.mem_cons.mp hc' with rfl | hc''
            · exact ensure_munis_self hlen'
            · exact ensure_munis_mono (hinv c' hc'' hlen') _
          · exact ih st seen hinv r hr' c hc hlen

theorem upsertMunis_fixpoint :
    ∀ (rs : List CanonicalRecord) (st : Store) (seen : List String),
      (∀ r ∈ rs, ∀ c, r.municipality_code = some c →
        c.length ≠ 5 ∨ c ∈ st.municipalities) →
      upsertMunis st seen rs = st := by
  intro rs
  induction rs with
  | nil => intro st seen _; rfl
  | cons r0 rs ih =>
      intro st seen h
      rcases hc0 : r0.municipality_code with _ | c0
      · simp only [upsertMunis, hc0]
        exact ih st seen (fun r hr => h r (List.mem_cons.mpr (Or.inr hr)))
      · simp only [upsertMunis, hc0]
        split
        · have hens : ensure_municipality_exists st c0 = st := by
            rcases h r0 (List.mem_cons_self r0 rs) c0 hc0 with hlen | hmem
            · simp [ensure_municipality_exists, hlen]
            · simp [ensure_municipality_exists, hmem]
          rw [hens]
          exact ih st _ (fun r hr => h r (List.mem_cons.mpr (Or.inr hr)))
        · exact ih st seen (fun r hr => h r (List.mem_cons.mpr (Or.inr hr)))

theorem insertRow_munis (st : Store) (r : CanonicalRecord) :
    (insertRow st r).1.municipalities = st.municipalities := by
  unfold insertRow
  split <;> rfl

theorem insertRow_append (st : Store) (r : CanonicalRecord) :
    ∃ t, (insertRow st r).1.transactions = st.transactions ++ t := by
  unfold insertRow
  split
  · exact ⟨[], by simp⟩
  · exact ⟨[r.source_hash], rfl⟩

theorem mem_insertRow {st : Store} {x : String} (h : x ∈ st.transactions)
    (r : CanonicalRecord) : x ∈ (insertRow st r).1.transactions := by
  obtain ⟨t, ht⟩ := insertRow_append st r
  rw [ht]
  exact List.mem_append.mpr (Or.inl h)

theorem self_mem_insertRow (st : Store) (r : CanonicalRecord) :
    r.source_hash ∈ (insertRow st r).1.transactions := by
  unfold insertRow
  split
  · next h => exact h
  · exact List.mem_append.mpr (Or.inr (List.mem_singleton.mpr rfl))

theorem insertRow_of_mem {st : Store} {r : CanonicalRecord}
    (h : r.source_hash ∈ st.transactions) : insertRow st r = (st, 0) := by
  unfold insertRow
  rw [if_pos h]

theorem insertPage_munis : ∀ (p : List CanonicalRecord) (st : Store),
    (insertPage st p).1.municipalities = st.municipalities := by
  intro p
  induction p with
  | nil => intro st; rfl
  | cons r rs ih =>
      intro st
      simp only [insertPage]
      rw [ih, insertRow_munis]

theorem insertPage_append : ∀ (p : List CanonicalRecord) (st : Store),
    ∃ t, (insertPage st p).1.transactions = st.transactions ++ t := by
  intro p
  induction p with
  | nil => intro st; exact ⟨[], by simp [insertPage]⟩
  | cons r rs ih =>
      intro st
      obtain ⟨t1, h1⟩ := insertRow_append st r
      obtain ⟨t2, h2⟩ := ih (insertRow st r).1
      refine ⟨t1 ++ t2, ?_⟩
      simp only [insertPage]
      rw [h2, h1, List.append_assoc]

theorem mem_insertPage {st : Store} {x : String} (h : x ∈ st.transactions)
    (p : List CanonicalRecord) : x ∈ (insertPage st p).1.transactions := by
  obtain ⟨t, ht⟩ := insertPage_append p st
  rw [ht]
  exact List.mem_append.mpr (Or.inl h)

theorem self_mem_insertPage : ∀ (p : List CanonicalRecord) (st : Store)
    (r : CanonicalRecord), r ∈ p →
    r.source_hash ∈ (insertPage st p).1.transactions := by
  intro p
  induction p with
  | nil => intro st r hr; cases hr
  | cons r0 rs ih =>
      intro st r hr
      simp only [insertPage]
      rcases List.mem_cons.mp hr with rfl | hr'
      · exact mem_insertPage (self_mem_insertRow st r) rs
      · exact ih _ r hr'

theorem insertPage_all_present : ∀ (p : List CanonicalRecord) (st : Store),
    (∀ r ∈ p, r.source_hash ∈ st.transactions) → insertPage st p = (st, 0) := by
  intro p
  induction p with
  | nil => intro st _; rfl
  | cons r0 rs ih =>
      intro st h
      simp only [insertPage]
      rw [insertRow_of_mem (h r0 (List.mem_cons_self r0 rs))]
      rw [ih st (fun r hr => h r (List.mem_cons.mpr (Or.inr hr)))]
      simp

theorem runPages_munis : ∀ (ps : List (List CanonicalRecord)) (st : Store),
    (runPages st ps).1.municipalities = st.municipalities := by
  intro ps
  induction ps with
  | nil => intro st; rfl
  | cons p ps ih =>
      intro st
      cases ps with
      | nil => exact insertPage_munis p st
      | cons q ps' =>
          simp only [runPages]
          rw [ih, insertPage_munis]

theorem runPages_append : ∀ (ps : List (List CanonicalRecord)) (st : Store),
    ∃ t, (runPages st ps).1.transactions = st.transactions ++ t := by
  intro ps
  induction ps with
  | nil => intro st; exact ⟨[], by simp [runPages]⟩
  | cons p ps ih =>
      intro st
      cases ps with
      | nil => exact insertPage_append p st
      | cons q ps' =>
          obtain ⟨t1, h1⟩ := insertPage_append p st
          obtain ⟨t2, h2⟩ := ih (insertPage st p).1
          refine ⟨t1 ++ t2, ?_⟩
          simp only [runPages]
          rw [h2, h1, List.append_assoc]

theorem mem_runPages {st : Store} {x : String} (h : x ∈ st.transactions)
    (ps : List (List CanonicalRecord)) :
    x ∈ (runPages st ps).1.transactions := by
  obtain ⟨t, ht⟩ := runPages_append ps st
  rw [ht]
  exact List.mem_append.mpr (Or.inl h)

theorem self_mem_runPages : ∀ (ps : List (List CanonicalRecord)) (st : Store)
    (page : List CanonicalRecord) (r : CanonicalRecord),
    page ∈ ps → r ∈ page →
    r.source_hash ∈ (runPages st ps).1.transactions := by
  intro ps
  induction ps with
  | nil => intro st page r hpage _; cases hpage
  | cons p ps ih =>
      intro st page r hpage hr
      cases ps with
      | nil =>
          rcases List.mem_cons.mp hpage with rfl | h'
          · exact self_mem_insertPage page st r hr
          · cases h'
      | cons q ps' =>
          rcases List.mem_cons.mp hpage with rfl | hpage'
          · simp only [runPages]
            exact mem_runPages (self_mem_insertPage page st r hr) (q :: ps')
          · simp only [runPages]
            exact ih _ page r hpage' hr

theorem runPages_all_present : ∀ (ps : List (List CanonicalRecord)) (st : Store),
    (∀ page ∈ ps, ∀ r ∈ page, r.source_hash ∈ st.transactions) →
    runPages st ps = (st, 0) := by
  intro ps
  induction ps with
  | nil => intro st _; rfl
  | cons p ps ih =>
      intro st h
      cases ps with
      | nil => exact insertPage_all_present p st (h p (List.mem_cons_self p []))
      | cons q ps' =>
          simp only [runPages]
          rw [insertPage_all_present p st (h p (List.mem_cons_self p (q :: ps')))]
          exact ih st (fun page hpage => h page (List.mem_cons.mpr (Or.inr hpage)))

theorem chunksOf_cons_of_ne {α : Type} (n : Nat) {l : List α} (h : l ≠ []) :
    chunksOf (n + 1) l = l.take (n + 1) :: chunksOf (n + 1) (l.drop (n + 1)) := by
  cases l with
  | nil => exact absurd rfl h
  | cons x xs => simp only [chunksOf]

theorem chunksOf_small {α : Type} (n : Nat) {l : List α} (h : l ≠ [])
    (hlen : l.length ≤ n + 1) : chunksOf (n + 1) l = [l] := by
  rw [chunksOf_cons_of_ne n h, List.take_of_length_le hlen,
    List.drop_eq_nil_of_le hlen]
  simp [chunksOf]

theorem chunksOf_join {α : Type} (n : Nat) :
    ∀ l : List α, (chunksOf (n + 1) l).flatten = l := by
  intro l
  generalize hlen : l.length = len
  induction len using Nat.strong_induction_on generalizing l with
  | _ len ih =>
      cases l with
      | nil => simp [chunksOf]
      | cons x xs =>
          rw [chunksOf_cons_of_ne n (List.cons_ne_nil x xs)]
          have hdec : ((x :: xs).drop (n + 1)).length < len := by
            rw [← hlen]
            simp only [List.length_drop, List.length_cons]
            omega
          rw [List.flatten_cons, ih _ hdec _ rfl, List.take_append_drop]

theorem mem_chunks {α : Type} {n : Nat} {l : List α} {page : List α}
    (hp : page ∈ chunksOf (n + 1) l) {x : α} (hx : x ∈ page) : x ∈ l := by
  have hj := chunksOf_join n l
  rw [← hj]
  exact List.mem_flatten.mpr ⟨page, hp, hx⟩

theorem insert_transactions_append :
    ∀ (st : Store) (records : List CanonicalRecord) (pref : String),
      ∃ t, (insert_transactions st records pref).1.transactions
        = st.transactions ++ t := by
  intro st records pref
  unfold insert_transactions
  split
  · exact ⟨[], by simp⟩
  · obtain ⟨t, ht⟩ := runPages_append (chunksOf 1000 records) (upsertMunis st [] records)
    rw [ht, upsertMunis_transactions]
    exact ⟨t, rfl⟩

theorem insert_transactions_all_mem :
    ∀ (st : Store) (records : List CanonicalRecord) (pref : String)
      (r : CanonicalRecord), r ∈ records →
      r.source_hash ∈ (insert_transactions st records pref).1.transactions := by
  intro st records pref r hr
  unfold insert_transactions
  split
  · next he =>
      rw [List.isEmpty_iff] at he
      subst he
      cases hr
  · obtain ⟨page, hpage, hrp⟩ : ∃ page ∈ chunksOf 1000 records, r ∈ page := by
      have hmem : r ∈ (chunksOf (999 + 1) records).flatten := by
        rw [chunksOf_join]
        exact hr
      exact List.mem_flatten.mp hmem
    exact self_mem_runPages _ _ page r hpage hrp

theorem insert_transactions_covers_munis :
    ∀ (st : Store) (records : List CanonicalRecord) (pref : String)
      (r : CanonicalRecord) (c : String),
      r ∈ records → r.municipality_code = some c → c.length = 5 →
      c ∈ (insert_transactions st records pref).1.municipalities := by
  intro st records pref r c hr hc hlen
  unfold insert_transactions
  split
  · next he =>
      rw [List.isEmpty_iff] at he
      subst he
      cases hr
  · rw [runPages_munis]
    exact upsertMunis_covers records st [] (fun c' hc' _ => absurd hc' (List.not_mem_nil c'))
      r hr c hc hlen

theorem insert_transactions_of_all_present :
    ∀ (st : Store) (records : List CanonicalRecord) (pref : String),
      (∀ r ∈ records, r.source_hash ∈ st.transactions) →
      (∀ r ∈ records, ∀ c, r.municipality_code = some c →
        c.length ≠ 5 ∨ c ∈ st.municipalities) →
      insert_transactions st records pref = (st, 0) := by
  intro st records pref hall hmun
  unfold insert_transactions
  split
  · rfl
  · rw [upsertMunis_fixpoint records st [] hmun]
    apply runPages_all_present
    intro page hpage r hrp
    exact hall r (mem_chunks hpage hrp)

/-- C1: loading is idempotent.  A second insert_transactions call with the
same records returns insertedCount 0 and leaves the store exactly as the
first call left it (in particular the transactions row count is unchanged),
and the first call only ever appends new rows after the existing ones — a
row whose source_hash is already present is skipped, never updated or
removed. -/
theorem C1_load_idempotent :
    ∀ (st : Store) (records : List CanonicalRecord) (pref : String),
      (∃ t, (insert_transactions st records pref).1.transactions
          = st.transactions ++ t) ∧
      insert_transactions (insert_transactions st records pref).1 records pref
        = ((insert_transactions st records pref).1, 0) := by
  intro st records pref
  refine ⟨insert_transactions_append st records pref, ?_⟩
  apply insert_transactions_of_all_present
  · intro r hr
    exact insert_transactions_all_mem st records pref r hr
  · intro r hr c hc
    by_cases hlen : c.length = 5
    · exact Or.inr (insert_transactions_covers_munis st records pref r c hr hc hlen)
    · exact Or.inl hlen

theorem insertPage_count :
    ∀ (p : List CanonicalRecord) (st : Store),
      (p.map (fun r => r.source_hash)).Nodup →
      (insertPage st p).2
        = (p.filter (fun r => decide (r.source_hash ∉ st.transactions))).length := by
  intro p
  induction p with
  | nil => intro st _; rfl
  | cons r rs ih =>
      intro st hnd
      simp only [List.map_cons, List.nodup_cons] at hnd
      obtain ⟨hnotin, hnd'⟩ := hnd
      by_cases hmem : r.source_hash ∈ st.transactions
      · simp only [insertPage]
        rw [insertRow_of_mem hmem]
        simp only [List.filter_cons]
        rw [ih st hnd']
        simp [hmem]
      · simp only [insertPage]
        unfold insertRow
        rw [if_neg hmem]
        simp only [List.filter_cons]
        rw [ih _ hnd']
        have hfe : rs.filter (fun r' =>
              decide (r'.source_hash ∉ st.transactions ++ [r.source_hash]))
            = rs.filter (fun r' => decide (r'.source_hash ∉ st.transactions)) := by
          apply List.filter_congr
          intro r' hr'
          have hne : r'.source_hash ≠ r.source_hash := by
            intro heq
            exact hnotin (heq ▸ List.mem_map.mpr ⟨r', hr', rfl⟩)
          simp [List.mem_append, hne]
        rw [hfe]
        simp [hmem]
        omega

theorem insertPage_fresh :
    ∀ (p : List CanonicalRecord) (st : Store),
      (∀ r ∈ p, r.source_hash ∉ st.transactions) →
      (p.map (fun r => r.source_hash)).Nodup →
      insertPage st p
        = ({ st with transactions := st.transactions ++ p.map (fun r => r.source_hash) },
           p.length) := by
  intro p
  induction p with
  | nil =>
      intro st _ _
      simp [insertPage]
  | cons r rs ih =>
      intro st hfresh hnd
      simp only [List.map_cons, List.nodup_cons] at hnd
      obtain ⟨hnotin, hnd'⟩ := hnd
      simp only [insertPage]
      unfold insertRow
      rw [if_neg (hfresh r (List.mem_cons_self r rs))]
      rw [ih _ ?_ hnd']
      · rw [Prod.mk.injEq]
        constructor
        · simp [List.append_assoc]
        · simp [List.length_cons]
          omega
      · intro r' hr'
        simp only [List.mem_append, List.mem_singleton]
        intro hmem
        rcases hmem with h1 | h1
        · exact hfresh r' (List.mem_cons.mpr (Or.inr hr')) h1
        · exact hnotin (h1 ▸ List.mem_map.mpr ⟨r', hr', rfl⟩)

theorem bigBatch_length : bigBatch.length = 1001 := by
  simp [bigBatch]

theorem bigBatch_hashes : bigBatch.map (fun r => r.source_hash)
    = (List.range 1001).map (fun i => String.mk (List.replicate i 'a')) := by
  unfold bigBatch
  rw [List.map_map]
  rfl

theorem bigBatch_hashes_nodup : (bigBatch.map (fun r => r.source_hash)).Nodup := by
  rw [bigBatch_hashes]
  have hinj : Function.Injective (fun i : Nat => String.mk (List.replicate i 'a')) := by
    intro i j h
    have hlen := congrArg (fun s : String => s.data.length) h
    simpa using hlen
  exact (List.nodup_range 1001).map hinj

set_option maxRecDepth 4000 in
/-- C3 counterexample: the claim fails on the code in two independent ways.
With 1001 pairwise-distinct fresh rows (one more than the execute_values
page size of 1000) insert_transactions returns 1, because cur.rowcount
reflects only the last page, while 1001 input rows had unseen hashes; and
with two copies of the same fresh row in one batch it returns 1, while both
input rows had a hash absent from the store before the call. -/
theorem C3_counterexample :
    ((insert_transactions ⟨[], []⟩ bigBatch "13").2 = 1 ∧
      claimedNewCount [] bigBatch = 1001) ∧
    ((insert_transactions ⟨[], []⟩ [mkRecHash "h", mkRecHash "h"] "13").2 = 1 ∧
      claimedNewCount [] [mkRecHash "h", mkRecHash "h"] = 2) := by
  have hlen := bigBatch_length
  have hne : bigBatch ≠ [] := by
    intro h
    rw [h] at hlen
    cases hlen
  have hdroplen : (bigBatch.drop 1000).length = 1 := by
    rw [List.length_drop, hlen]
  have hdropne : bigBatch.drop 1000 ≠ [] := by
    intro h
    rw [h] at hdroplen
    cases hdroplen
  have hnd := bigBatch_hashes_nodup
  refine ⟨⟨?_, ?_⟩, ?_, ?_⟩
  · have hchunks : chunksOf 1000 bigBatch
        = [bigBatch.take 1000, bigBatch.drop 1000] := by
      rw [show (1000 : Nat) = 999 + 1 from rfl, chunksOf_cons_of_ne 999 hne,
        chunksOf_small 999 hdropne (by rw [hdroplen]; omega)]
    have hupsert : upsertMunis ⟨[], []⟩ [] bigBatch = ⟨[], []⟩ := by
      apply upsertMunis_fixpoint
      intro r hr c hc
      unfold bigBatch at hr
      obtain ⟨i, _, rfl⟩ := List.mem_map.mp hr
      rw [show (mkRecHash (String.mk (List.replicate i 'a'))).municipality_code
          = none from rfl] at hc
      cases hc
    have hnd1 : ((bigBatch.take 1000).map (fun r => r.source_hash)).Nodup := by
      rw [List.map_take]
      exact List.Nodup.sublist (List.take_sublist _ _) hnd
    have hnd2 : ((bigBatch.drop 1000).map (fun r => r.source_hash)).Nodup := by
      rw [List.map_drop]
      exact List.Nodup.sublist (List.drop_sublist _ _) hnd
    have hp1 := insertPage_fresh (bigBatch.take 1000) ⟨[], []⟩
      (fun r _ => List.not_mem_nil _) hnd1
    have hdisj : List.Disjoint
        ((bigBatch.map (fun r => r.source_hash)).take 1000)
        ((bigBatch.map (fun r => r.source_hash)).drop 1000) :=
      List.disjoint_take_drop hnd (le_refl 1000)
    have hins : insert_transactions ⟨[], []⟩ bigBatch "13"
        = runPages (upsertMunis ⟨[], []⟩ [] bigBatch) (chunksOf 1000 bigBatch) := by
      unfold insert_transactions
      rw [if_neg (by simp [isEmpty_false_of_ne_nil hne])]
    rw [hins, hupsert, hchunks]
    show (insertPage (insertPage ⟨[], []⟩ (bigBatch.take 1000)).1 (bigBatch.drop 1000)).2 = 1
    rw [hp1]
    have hfresh2 : ∀ r ∈ bigBatch.drop 1000,
        r.source_hash ∉ [] ++ (bigBatch.take 1000).map (fun r => r.source_hash) := by
      intro r hr
      rw [List.nil_append, List.map_take]
      have hmem : r.source_hash ∈ (bigBatch.map (fun r => r.source_hash)).drop 1000 := by
        rw [← List.map_drop]
        exact List.mem_map.mpr ⟨r, hr, rfl⟩
      exact fun hcontra => (List.disjoint_right.mp hdisj hmem) hcontra
    rw [insertPage_fresh (bigBatch.drop 1000) _ hfresh2 hnd2]
    exact hdroplen
  · unfold claimedNewCount
    have hf : bigBatch.filter (fun r => decide (r.source_hash ∉ ([] : List String)))
        = bigBatch := by
      apply List.filter_eq_self.mpr
      intro r _
      simp
    rw [hf, bigBatch_length]
  · have hch2 : chunksOf 1000 [mkRecHash "h", mkRecHash "h"]
        = [[mkRecHash "h", mkRecHash "h"]] := by
      rw [show (1000 : Nat) = 999 + 1 from rfl]
      exact chunksOf_small 999 (by simp) (by simp)
    have hins2 : insert_transactions ⟨[], []⟩ [mkRecHash "h", mkRecHash "h"] "13"
        = runPages (upsertMunis ⟨[], []⟩ [] [mkRecHash "h", mkRecHash "h"])
            (chunksOf 1000 [mkRecHash "h", mkRecHash "h"]) := by
      unfold insert_transactions
      rw [if_neg (by simp)]
    rw [hins2, hch2]
    rfl
  · rfl

/-- C3 amended: for a batch that fits in one execute_values page (at most
1000 rows) and whose source_hash values are pairwise distinct, the count
returned by insert_transactions equals exactly the number of input rows
whose source_hash was not already present in the store before the call;
in general the returned value is only the rowcount of the final page, and
a duplicate hash within the batch is skipped without being counted. -/
theorem C3_inserted_count_amended :
    ∀ (st : Store) (records : List CanonicalRecord) (pref : String),
      records.length ≤ 1000 →
      (records.map (fun r => r.source_hash)).Nodup →
      (insert_transactions st records pref).2
        = claimedNewCount st.transactions records := by
  intro st records pref hlen hnd
  rcases records with _ | ⟨r0, rs⟩
  · rfl
  · unfold insert_transactions
    rw [if_neg (by simp)]
    rw [show (1000 : Nat) = 999 + 1 from rfl] at hlen ⊢
    rw [chunksOf_small 999 (List.cons_ne_nil r0 rs) hlen]
    show (insertPage (upsertMunis st [] (r0 :: rs)) (r0 :: rs)).2 = _
    rw [insertPage_count (r0 :: rs) _ hnd, upsertMunis_transactions]
    rfl

theorem C3_inserted_count_amended_witness :
    (insert_transactions ⟨["x"], []⟩ [mkRecHash "x", mkRecHash "y"] "13").2
      = claimedNewCount ["x"] [mkRecHash "x", mkRecHash "y"] :=
  C3_inserted_count_amended ⟨["x"], []⟩ [mkRecHash "x", mkRecHash "y"] "13"
    (by decide) (by decide)

example : parse_numeric (PyVal.vStr "1,234,567") = some 1234567 := by decide
example : parse_numeric (PyVal.vStr "") = none := by decide
example : parse_numeric PyVal.vNone = none := by decide
example : parse_numeric (PyVal.vStr " 12.5 ") = some (25 / 2) := by
  show some ((digitsVal ['1', '2'] : ℚ) + (digitsVal ['5'] : ℚ) / (10 : ℚ) ^ 1) = _
  have h1 : digitsVal ['1', '2'] = 12 := by decide
  have h2 : digitsVal ['5'] = 5 := by decide
  rw [h1, h2]
  norm_num
example : parse_building_year (PyVal.vStr "1987") = some 1987 := by decide
example : parse_building_year (PyVal.vStr "令和5年") = some 2023 := by decide
example : parse_building_year (PyVal.vStr "Heisei 3") = some 1991 := by decide
example : parse_building_year (PyVal.vStr "Showa 60") = some 1985 := by decide
example : parse_building_year (PyVal.vStr "1850") = none := by decide
example : parse_building_year (PyVal.vStr "") = none := by decide
example : parse_building_year (PyVal.vStr "unknown") = none := by decide
